import Mathlib

/-!
# Verification of the MMARIA & SIMONe plot publisher's archival core

Shallow embedding of `mmaria_simone_webapp.py`: the station registry, the
file mirror (`mirror_current_and_archive`), the archive writer
(`_archive_file`), the backfill sweep (`archive_only_from_old_incoming`),
the SQLite-backed catalog (table `archive_images` with a
`UNIQUE (station_key, date)` constraint and an
`ON CONFLICT ... DO UPDATE` upsert), the search query, and the `scan`
CLI command.

Modelling conventions:
* A file is its name, its POSIX modification time (`Nat`, seconds since
  the epoch; files predate no earlier than 1970), an abstract content
  identifier, and a flag `bad` meaning that archiving this file raises an
  I/O error.  In this model a raised archival error happens at the copy
  step, before any catalog write, so a failed archival leaves both the
  archive file system and the catalog unchanged.
* Fallible operations return `Option`: `none` models an uncaught Python
  exception propagating to the caller.
* Directories for `incoming`, `current` and `archive` are modelled by
  their (possibly absent) contents; the existence of the per-station
  `old incoming` directory is tracked explicitly because the source
  checks it (`src_dir.exists()`).
* `sorted(..., key=lambda p: p.stat().st_mtime)` is a stable sort by
  modification time; any stable sort computes the same list, and we use
  `List.insertionSort`, which is stable for a total preorder.
* SQLite's `ORDER BY` on `TEXT` columns compares with the BINARY
  collation (bytewise); on valid UTF-8 this agrees with Lean's
  lexicographic `String` order, which we use.
-/

/-- A file on disk: name, POSIX mtime (seconds), abstract content, and a
flag saying that archiving it raises an error (transient I/O failure). -/
structure SrcFile where
  name : String
  mtime : Nat
  content : Nat
  bad : Bool
deriving DecidableEq

/-- A station descriptor, one entry of the `STATIONS` list. -/
structure StationCfg where
  key : String
  project : String
  country : String
  station : String
  map_embed : String
  incoming_filename : String
deriving DecidableEq

/-- The `STATIONS` registry from the source. -/
def STATIONS : List StationCfg :=
  [ { key := "mmaria_scandinavia", project := "MMARIA", country := "Norway",
      station := "MMARIA Scandinavia",
      map_embed := "https://www.google.com/maps/d/u/0/embed?mid=1A70yF5VLpIKCW6-V_TgGJFn6Qok",
      incoming_filename := "multilink_overview_mmaria-norway.png" },
    { key := "mmaria_germany", project := "MMARIA", country := "Germany",
      station := "MMARIA Germany",
      map_embed := "https://www.google.com/maps/d/u/0/embed?mid=1I6D20ucZeomNTYKe3iDHF3jtPXm36CRx",
      incoming_filename := "multilink_overview_mmaria-germany.png" },
    { key := "simone_jicamarca", project := "SIMONe", country := "Peru",
      station := "SIMONe Jicamarca",
      map_embed := "https://www.google.com/maps/d/u/0/embed?mid=1IxOgSL2Yh3NxMPDsR3nCFNTTIeFXuF56",
      incoming_filename := "multilink_overview_simone-peru.png" },
    { key := "simone_piura", project := "SIMONe", country := "Peru",
      station := "SIMONe Piura",
      map_embed := "https://www.google.com/maps/d/embed?mid=1ynGhjIEs0zK7nZp6xt1RJE86ALFMGguI",
      incoming_filename := "multilink_overview_simone-peru2.png" },
    { key := "simone_argentina", project := "SIMONe", country := "Argentina",
      station := "SIMONe Argentina",
      map_embed := "https://www.google.com/maps/d/embed?mid=1AGS55_83ywb7weAJ-O2VqRNw6F0SKne5",
      incoming_filename := "multilink_overview_simone-argentina.png" },
    { key := "simone_newmexico", project := "SIMONe", country := "USA",
      station := "SIMONe New Mexico",
      map_embed := "https://www.google.com/maps/d/u/0/embed?mid=1jZVpT6BahHtqejR2qziAi5xh5bWKtcs&ehbc=2E312F",
      incoming_filename := "multilink_overview_simone-new_mexico.png" },
    { key := "simone_haystack", project := "SIMONe", country := "USA",
      station := "SIMONe Haystack",
      map_embed := "https://www.google.com/maps/d/embed?mid=1ugVi-xvVCkU7yc3lcuOJXbyV6qK1UDY&ehbc=2E312F",
      incoming_filename := "multilink_overview_simone-haystack.png" } ]

/-- Zero-pad a number to two digits, as `strftime` does for `%m`, `%d`. -/
def pad2 (n : Nat) : String :=
  if n < 10 then "0" ++ toString n else toString n

/-- Zero-pad a number to four digits, as `strftime` does for `%Y`. -/
def pad4 (n : Nat) : String :=
  if n < 10 then "000" ++ toString n
  else if n < 100 then "00" ++ toString n
  else if n < 1000 then "0" ++ toString n
  else toString n

/-- Proleptic Gregorian civil date from a count of days since 1970-01-01
(the standard era-based `civil_from_days` computation, the arithmetic
performed by `datetime.fromtimestamp(ts, tz=timezone.utc)` for
nonnegative timestamps). -/
def civilFromDays (z : Nat) : Nat × Nat × Nat :=
  let z' := z + 719468
  let era := z' / 146097
  let doe := z' % 146097
  let yoe := (doe - doe / 1460 + doe / 36524 - doe / 146096) / 365
  let y := yoe + era * 400
  let doy := doe - (365 * yoe + yoe / 4 - yoe / 100)
  let mp := (5 * doy + 2) / 153
  let d := doy - (153 * mp + 2) / 5 + 1
  let m := if mp < 10 then mp + 3 else mp - 9
  (if m ≤ 2 then y + 1 else y, m, d)

/-- `utc_date_from_mtime`: the UTC calendar day of a modification
timestamp, rendered `YYYY-MM-DD` as by `strftime("%Y-%m-%d")`. -/
def utc_date_from_mtime (mtime : Nat) : String :=
  let c := civilFromDays (mtime / 86400)
  pad4 c.1 ++ "-" ++ pad2 c.2.1 ++ "-" ++ pad2 c.2.2

/-- One row of the `archive_images` table (the SQLite `id` rowid is not
modelled; no behaviour of the program reads it). -/
structure ArchiveImage where
  image_name : String
  country : String
  station : String
  date : String
  station_key : String
  file_path : String
deriving DecidableEq

/-- The dict returned by `_archive_file`:
`{"key": ..., "date": ..., "archive": ...}`. -/
structure ArchInfo where
  key : String
  date : String
  archive : String
deriving DecidableEq

/-- The archive-side state shared by all stations: the files stored under
`archive/` (a path-indexed map) and the `archive_images` catalog. -/
structure ArchState where
  fs : List (String × SrcFile)
  catalog : List ArchiveImage
deriving DecidableEq

/-- Rows `x` and `r` collide on the `UNIQUE (station_key, date)` key. -/
def sameKey (x r : ArchiveImage) : Bool :=
  x.station_key == r.station_key && x.date == r.date

/-- `INSERT ... ON CONFLICT(station_key, date) DO UPDATE SET
image_name=excluded.image_name, country=excluded.country,
station=excluded.station, file_path=excluded.file_path`:
insert the row, or on key conflict update the non-key fields in place. -/
def upsert (c : List ArchiveImage) (r : ArchiveImage) : List ArchiveImage :=
  if c.any (fun x => sameKey x r) then
    c.map (fun x => if sameKey x r then
      { x with image_name := r.image_name, country := r.country,
               station := r.station, file_path := r.file_path }
      else x)
  else c ++ [r]

/-- Look up the catalog row for a `(station_key, date)` key. -/
def findRec (c : List ArchiveImage) (k d : String) : Option ArchiveImage :=
  c.find? (fun x => x.station_key == k && x.date == d)

/-- The `UNIQUE (station_key, date)` key of a row. -/
def keyOf (r : ArchiveImage) : String × String :=
  (r.station_key, r.date)

/-- The multiset of catalog keys, in row order. -/
def keysOf (st : ArchState) : List (String × String) :=
  st.catalog.map keyOf

/-- Write a file at a path (overwriting a same-named file, as
`shutil.copy2` does). -/
def fsWrite (fs : List (String × SrcFile)) (p : String) (f : SrcFile) :
    List (String × SrcFile) :=
  if fs.any (fun e => e.1 == p) then
    fs.map (fun e => if e.1 == p then (p, f) else e)
  else fs ++ [(p, f)]

/-- Read the file stored at a path. -/
def fsRead (fs : List (String × SrcFile)) (p : String) : Option SrcFile :=
  (fs.find? (fun e => e.1 == p)).map (fun e => e.2)

/-- `archive_dst.relative_to(DATA_DIR).as_posix()`:
`archive/<station_key>/<YYYY>/<MM>/<DD>/<original name>`.  The source
obtains `yyyy, mm, dd` by splitting the `YYYY-MM-DD` string on `-`;
since the padded components contain no dash, that split returns exactly
the padded components used here. -/
def archivePath (cfg : StationCfg) (f : SrcFile) : String :=
  let c := civilFromDays (f.mtime / 86400)
  "archive/" ++ cfg.key ++ "/" ++ pad4 c.1 ++ "/" ++ pad2 c.2.1 ++ "/" ++
    pad2 c.2.2 ++ "/" ++ f.name

/-- The catalog row that archiving `f` for station `cfg` upserts. -/
def rowOf (cfg : StationCfg) (f : SrcFile) : ArchiveImage :=
  { image_name := f.name, country := cfg.country, station := cfg.station,
    date := utc_date_from_mtime f.mtime, station_key := cfg.key,
    file_path := archivePath cfg f }

/-- The dict that `_archive_file` returns for `f`. -/
def infoOf (cfg : StationCfg) (f : SrcFile) : ArchInfo :=
  { key := cfg.key, date := utc_date_from_mtime f.mtime,
    archive := archivePath cfg f }

/-- The successful effect of `_archive_file` on the shared state: copy
into the day-partitioned archive directory, then upsert the catalog. -/
def applyArch (cfg : StationCfg) (st : ArchState) (f : SrcFile) : ArchState :=
  { fs := fsWrite st.fs (archivePath cfg f) f,
    catalog := upsert st.catalog (rowOf cfg f) }

/-- `_archive_file(src, station_cfg)`.  `src = none` models a
non-existent source path (`if not src.exists(): return None`).  The
result `none` models a raised exception (`f.bad`), which in this model
occurs at the copy step, before the catalog write.  Directory creation
(`_ensure_dirs_for_station`, `archive_dir.mkdir`) touches no state
tracked in `ArchState`; the old-incoming directory it creates is
tracked in `StWorld` and ensured by the callers in source order. -/
def archive_file (src : Option SrcFile) (cfg : StationCfg) (st : ArchState) :
    Option (Option ArchInfo × ArchState) :=
  match src with
  | none => some (none, st)
  | some f =>
    if f.bad then none
    else some (some (infoOf cfg f), applyArch cfg st f)

/-- Per-station world: the single incoming file (if the expected path
exists), the `current/<key>/latest.png` file, the contents of the
`old incoming/<key>` directory (`none` = directory absent), and whether
`stat` succeeds during the mirror's timestamp comparison. -/
structure StWorld where
  incoming : Option SrcFile
  current : Option SrcFile
  oldIncomingDir : Option (List SrcFile)
  statOk : Bool
deriving DecidableEq

/-- `_ensure_dirs_for_station`: `mkdir(parents=True, exist_ok=True)`; the
only directory whose existence this model tracks is `old incoming/<key>`. -/
def ensure_dirs_for_station (w : StWorld) : StWorld :=
  { w with oldIncomingDir := some (w.oldIncomingDir.getD []) }

/-- `_is_newer_than_current`: `True` if the current file does not exist;
otherwise compare mtimes, and on a `stat` exception return `False`
(conservatively do not mirror). -/
def is_newer_than_current (srcMtime : Nat) (current : Option SrcFile)
    (statOk : Bool) : Bool :=
  match current with
  | none => true
  | some c => if statOk then decide (srcMtime > c.mtime) else false

/-- The result of `shutil.copy2(src, current_dst)`: the file named
`latest.png` with `src`'s content and, because `copy2` preserves
metadata, `src`'s modification time. -/
def mkCurrent (src : SrcFile) : SrcFile :=
  { name := "latest.png", mtime := src.mtime, content := src.content,
    bad := src.bad }

/-- `mirror_current_and_archive(station_cfg)`: ensure directories; if the
incoming file is absent, return `None`; otherwise mirror it to
`current/<key>/latest.png` when it is newer, and in either case archive
it.  `none` models the uncaught exception raised when archiving fails. -/
def mirror_current_and_archive (cfg : StationCfg) (w : StWorld)
    (st : ArchState) : Option (Option ArchInfo × StWorld × ArchState) :=
  let w := ensure_dirs_for_station w
  match w.incoming with
  | none => some (none, w, st)
  | some src =>
    let w' := if is_newer_than_current src.mtime w.current w.statOk
              then { w with current := some (mkCurrent src) }
              else w
    match archive_file (some src) cfg st with
    | none => none
    | some (info, st') => some (info, w', st')

/-- `src_dir.glob("*.png")` membership, modelled as a suffix match on
the file name's characters (every modelled directory entry is a regular
file, so the `p.is_file()` filter is vacuous here). -/
def isPng (f : SrcFile) : Bool :=
  ".png".data.isSuffixOf f.name.data

/-- The sort key of `sorted(..., key=lambda p: p.stat().st_mtime)`. -/
def mtimeLE (a b : SrcFile) : Prop :=
  a.mtime ≤ b.mtime

instance : DecidableRel mtimeLE :=
  fun a b => inferInstanceAs (Decidable (a.mtime ≤ b.mtime))

instance : IsTotal SrcFile mtimeLE :=
  ⟨fun a b => Nat.le_total a.mtime b.mtime⟩

instance : IsTrans SrcFile mtimeLE :=
  ⟨fun _ _ _ hab hbc => Nat.le_trans hab hbc⟩

/-- `sorted([p for p in src_dir.glob("*.png") if p.is_file()],
key=lambda p: p.stat().st_mtime)`: the `.png` entries in ascending
modification-time order (Python's `sorted` is stable; so is insertion
sort for a total preorder, and any two stable sorts by the same key
agree). -/
def sortedPngs (files : List SrcFile) : List SrcFile :=
  List.insertionSort mtimeLE (files.filter isPng)

/-- The warning line printed for a failed backfill archival (the
exception text is abstracted to the file name). -/
def warnOf (f : SrcFile) : String :=
  "[WARN] Konnte alte Datei nicht archivieren: " ++ f.name

/-- Outcome of the backfill loop: the `archived` accumulator, the
directory contents after deletions, the shared archive state, and the
`[WARN]` lines printed for per-file failures. -/
structure SweepOut where
  archived : List ArchInfo
  dir : List SrcFile
  st : ArchState
  log : List String
deriving DecidableEq

/-- The per-file loop of `archive_only_from_old_incoming`: archive each
listed file; on success append its info and delete the source
(`src.unlink(missing_ok=True)`, i.e. remove the directory entry with
that name); on an exception print a warning and continue with the next
file.  The exception text appended by Python is abstracted away. -/
def sweepLoop (cfg : StationCfg) (ps : List SrcFile) (dir : List SrcFile)
    (st : ArchState) (acc : List ArchInfo) (log : List String) : SweepOut :=
  match ps with
  | [] => ⟨acc, dir, st, log⟩
  | src :: rest =>
    match archive_file (some src) cfg st with
    | none =>
      sweepLoop cfg rest dir st acc
        (log ++ ["[WARN] Konnte alte Datei nicht archivieren: " ++ src.name])
    | some (info, st') =>
      match info with
      | some i =>
        sweepLoop cfg rest (dir.filter (fun g => g.name != src.name)) st'
          (acc ++ [i]) log
      | none => sweepLoop cfg rest dir st' acc log

/-- `archive_only_from_old_incoming(station_cfg)`: ensure directories,
return `None` if the old-incoming directory is absent, else process its
`.png` files in ascending-mtime order.  The fourth component collects
the warnings printed for per-file failures. -/
def archive_only_from_old_incoming (cfg : StationCfg) (w : StWorld)
    (st : ArchState) :
    Option (List ArchInfo) × StWorld × ArchState × List String :=
  let w := ensure_dirs_for_station w
  match w.oldIncomingDir with
  | none => (none, w, st, [])
  | some files =>
    let pngs := sortedPngs files
    let out := sweepLoop cfg pngs files st [] []
    (some out.archived, { w with oldIncomingDir := some out.dir }, out.st,
      out.log)

/-- One station's slot in a scan pass: its descriptor and its world. -/
structure StRow where
  cfg : StationCfg
  w : StWorld
deriving DecidableEq

/-- Phase 1 of `scan_cmd`: `mirror_current_and_archive` for every
station in order, collecting the truthy infos into `created`.  `none`
models an exception aborting the scan. -/
def phase1 : List StRow → ArchState →
    Option (List StRow × ArchState × List ArchInfo)
  | [], st => some ([], st, [])
  | r :: rs, st =>
    match mirror_current_and_archive r.cfg r.w st with
    | none => none
    | some (info, w', st') =>
      match phase1 rs st' with
      | none => none
      | some (rs', st'', created) =>
        some (⟨r.cfg, w'⟩ :: rs', st'', info.toList ++ created)

/-- Phase 2 of `scan_cmd`: `archive_only_from_old_incoming` for every
station in order, extending `archived_old`.  A `None` return would make
`archived_old.extend(archived)` raise `TypeError`, modelled by `none`. -/
def phase2 : List StRow → ArchState →
    Option (List StRow × ArchState × List ArchInfo)
  | [], st => some ([], st, [])
  | r :: rs, st =>
    match archive_only_from_old_incoming r.cfg r.w st with
    | (none, _, _, _) => none
    | (some l, w', st', _) =>
      match phase2 rs st' with
      | none => none
      | some (rs', st'', acc) => some (⟨r.cfg, w'⟩ :: rs', st'', l ++ acc)

/-- `scan_cmd`: phase 1 (mirror + archive) over all stations, then
phase 2 (backfill) over all stations, returning the updated worlds, the
shared state, and the `created` / `archived_old` report lists. -/
def scan_cmd (rows : List StRow) (st : ArchState) :
    Option (List StRow × ArchState × List ArchInfo × List ArchInfo) :=
  match phase1 rows st with
  | none => none
  | some (rows₁, st₁, created) =>
    match phase2 rows₁ st₁ with
    | none => none
    | some (rows₂, st₂, old) => some (rows₂, st₂, created, old)

/-- The catalog-writing invocations of the scan path, closed under any
interleaving: a mirror tick, a backfill sweep, or a bare archive call. -/
inductive ScanOp where
  | mirrorOp (cfg : StationCfg) (w : StWorld)
  | backfillOp (cfg : StationCfg) (w : StWorld)
  | archiveOp (cfg : StationCfg) (src : Option SrcFile)

/-- Effect of one scan invocation on the shared archive state.  A raised
archival error occurs before any catalog write in this model, so the
exception branches leave the state unchanged. -/
def applyOp (st : ArchState) (op : ScanOp) : ArchState :=
  match op with
  | .mirrorOp cfg w =>
    match mirror_current_and_archive cfg w st with
    | some (_, _, st') => st'
    | none => st
  | .backfillOp cfg w => (archive_only_from_old_incoming cfg w st).2.2.1
  | .archiveOp cfg src =>
    match archive_file src cfg st with
    | some (_, st') => st'
    | none => st

/-- The `init-db` state: empty archive tree, empty `archive_images`. -/
def initState : ArchState :=
  { fs := [], catalog := [] }

/-- The projection `SELECT image_name, country, station, date, file_path`
used by the `/search` route. -/
structure SearchRow where
  image_name : String
  country : String
  station : String
  date : String
  file_path : String
deriving DecidableEq

/-- Project a catalog row onto the five selected columns. -/
def selectRow (r : ArchiveImage) : SearchRow :=
  { image_name := r.image_name, country := r.country, station := r.station,
    date := r.date, file_path := r.file_path }

/-- The `WHERE` clause built by `/search`: one `AND column = ?` per
non-empty query parameter (an absent parameter arrives as `''`). -/
def matches_query (qc qs qd : String) (r : SearchRow) : Bool :=
  (qc == "" || r.country == qc) && (qs == "" || r.station == qs) &&
    (qd == "" || r.date == qd)

/-- `ORDER BY date DESC, station ASC` as a total preorder on rows. -/
def searchLE (a b : SearchRow) : Prop :=
  b.date < a.date ∨ (a.date = b.date ∧ a.station ≤ b.station)

instance : DecidableRel searchLE := fun _ _ =>
  inferInstanceAs (Decidable (_ ∨ _))

instance : IsTotal SearchRow searchLE := by
  constructor
  intro a b
  rcases lt_trichotomy a.date b.date with h | h | h
  · exact Or.inr (Or.inl h)
  · rcases le_total a.station b.station with hs | hs
    · exact Or.inl (Or.inr ⟨h, hs⟩)
    · exact Or.inr (Or.inr ⟨h.symm, hs⟩)
  · exact Or.inl (Or.inl h)

instance : IsTrans SearchRow searchLE := by
  constructor
  intro a b c hab hbc
  rcases hab with hab | ⟨hab, hab'⟩
  · rcases hbc with hbc | ⟨hbc, _⟩
    · exact Or.inl (lt_trans hbc hab)
    · exact Or.inl (hbc ▸ hab)
  · rcases hbc with hbc | ⟨hbc, hbc'⟩
    · exact Or.inl (hab ▸ hbc)
    · exact Or.inr ⟨hab.trans hbc, hab'.trans hbc'⟩

/-- The result set of the `/search` route for stripped query parameters
`qc, qs, qd`: the matching rows, ordered by day descending then station
ascending.  SQLite leaves the relative order of rows equal in both sort
keys unspecified; this model fixes one such order via a stable sort. -/
def search_route (qc qs qd : String) (c : List ArchiveImage) :
    List SearchRow :=
  List.insertionSort searchLE ((c.map selectRow).filter (matches_query qc qs qd))

/-- Every catalog key of `st` is also a key of `st'` (keys are never
removed by scan operations). -/
def keySub (st st' : ArchState) : Prop :=
  ∀ k, k ∈ keysOf st → k ∈ keysOf st'

/-- After a successful mirror pass the station's incoming file (if any)
is not `bad` and is no longer strictly newer than `current`, so a
repeated pass will not copy. -/
def mirrorSettled (r : StRow) : Prop :=
  ∀ src, r.w.incoming = some src →
    src.bad = false ∧
      is_newer_than_current src.mtime r.w.current r.w.statOk = false

/-- After a successful backfill sweep the station's old-incoming
directory exists and every `.png` left in it fails to archive. -/
def oldSettled (r : StRow) : Prop :=
  ∃ l, r.w.oldIncomingDir = some l ∧ ∀ g ∈ l, isPng g = true → g.bad = true

/-- The catalog key the station's incoming file (if any) would upsert is
already present in `st`. -/
def rowKey (r : StRow) (st : ArchState) : Prop :=
  ∀ src, r.w.incoming = some src → keyOf (rowOf r.cfg src) ∈ keysOf st

/-- A small concrete station used as a witness input. -/
def wcfg : StationCfg :=
  { key := "k", project := "p", country := "c", station := "s",
    map_embed := "m", incoming_filename := "a.png" }

/-- A small concrete incoming file used as a witness input. -/
def wfile : SrcFile :=
  { name := "a.png", mtime := 86410, content := 7, bad := false }

/-- One-station rows before a first scan, used as a witness input. -/
def wrows0 : List StRow :=
  [⟨wcfg, { incoming := some wfile, current := none, oldIncomingDir := none,
            statOk := true }⟩]

/-- The rows produced by one scan over `wrows0` from `initState`. -/
def wrows1 : List StRow :=
  [⟨wcfg, { incoming := some wfile,
            current := some { name := "latest.png", mtime := 86410,
                              content := 7, bad := false },
            oldIncomingDir := some [], statOk := true }⟩]

/-- The archive state produced by one scan over `wrows0`. -/
def wst1 : ArchState :=
  { fs := [("archive/k/1970/01/02/a.png", wfile)],
    catalog := [{ image_name := "a.png", country := "c", station := "s",
                  date := "1970-01-02", station_key := "k",
                  file_path := "archive/k/1970/01/02/a.png" }] }

/-- The info reported for `wfile` by the first scan. -/
def winfo : ArchInfo :=
  { key := "k", date := "1970-01-02", archive := "archive/k/1970/01/02/a.png" }

/-- Three good same-extension backfill files, two on the same UTC day. -/
def wg1 : SrcFile := { name := "a.png", mtime := 100, content := 1, bad := false }

/-- Second backfill witness file (same day as `wg1`, later). -/
def wg2 : SrcFile := { name := "b.png", mtime := 200, content := 2, bad := false }

/-- Third backfill witness file (the next UTC day). -/
def wg3 : SrcFile := { name := "c.png", mtime := 86500, content := 3, bad := false }

/-- A failing backfill witness file. -/
def wbadf : SrcFile := { name := "d.png", mtime := 300, content := 4, bad := true }

/-- A non-`.png` backfill witness file. -/
def wtxt : SrcFile := { name := "n.txt", mtime := 150, content := 5, bad := false }

/-- Backfill directory listing for the drain witness. -/
def wfiles3 : List SrcFile := [wg2, wg3, wg1]

/-- World whose old-incoming directory holds `wfiles3`. -/
def wback : StWorld :=
  { incoming := none, current := none, oldIncomingDir := some wfiles3,
    statOk := true }

/-- Mixed backfill directory listing for the failure-isolation witness. -/
def wfilesMix : List SrcFile := [wg1, wbadf, wtxt]

/-- World whose old-incoming directory holds `wfilesMix`. -/
def wmix : StWorld :=
  { incoming := none, current := none, oldIncomingDir := some wfilesMix,
    statOk := true }

/-- World with an incoming file and an older current file. -/
def wmir : StWorld :=
  { incoming := some wfile,
    current := some { name := "latest.png", mtime := 50, content := 9,
                      bad := false },
    oldIncomingDir := some [], statOk := true }

/-- World with no incoming file and no directories. -/
def wnone : StWorld :=
  { incoming := none, current := none, oldIncomingDir := none, statOk := true }

theorem sameKey_iff (x r : ArchiveImage) :
    sameKey x r = true ↔ x.station_key = r.station_key ∧ x.date = r.date := by
  simp [sameKey]

theorem sameKey_keyOf (x r : ArchiveImage) :
    sameKey x r = true ↔ keyOf x = keyOf r := by
  simp [sameKey, keyOf, Prod.ext_iff]

/-- The `DO UPDATE` row equals the excluded row: the key fields already
agree and every non-key field is overwritten. -/
theorem update_eq_of_sameKey {x r : ArchiveImage} (h : sameKey x r = true) :
    { x with image_name := r.image_name, country := r.country,
             station := r.station, file_path := r.file_path } = r := by
  rcases (sameKey_iff x r).1 h with ⟨h1, h2⟩
  cases x; cases r
  simp_all

theorem any_sameKey_iff (c : List ArchiveImage) (r : ArchiveImage) :
    c.any (fun x => sameKey x r) = true ↔ keyOf r ∈ c.map keyOf := by
  simp only [List.any_eq_true, List.mem_map]
  constructor
  · rintro ⟨x, hx, hk⟩
    exact ⟨x, hx, ((sameKey_keyOf x r).1 hk).symm ▸ rfl⟩
  · rintro ⟨x, hx, hk⟩
    exact ⟨x, hx, (sameKey_keyOf x r).2 hk⟩

theorem keyOf_update (x r : ArchiveImage) :
    keyOf { x with image_name := r.image_name, country := r.country,
                   station := r.station, file_path := r.file_path } = keyOf x := rfl

theorem upsert_map_keyOf_of_mem {c : List ArchiveImage} {r : ArchiveImage}
    (h : keyOf r ∈ c.map keyOf) :
    (upsert c r).map keyOf = c.map keyOf := by
  rw [upsert, if_pos ((any_sameKey_iff c r).2 h)]
  rw [List.map_map]
  apply List.map_congr_left
  intro x _
  by_cases hx : sameKey x r = true
  · simp [Function.comp, hx, keyOf_update]
  · simp [Function.comp, hx]

theorem upsert_map_keyOf_of_not_mem {c : List ArchiveImage} {r : ArchiveImage}
    (h : keyOf r ∉ c.map keyOf) :
    (upsert c r).map keyOf = c.map keyOf ++ [keyOf r] := by
  rw [upsert, if_neg]
  · simp
  · intro hc
    exact h ((any_sameKey_iff c r).1 hc)

theorem keyOf_mem_upsert (c : List ArchiveImage) (r : ArchiveImage) :
    keyOf r ∈ (upsert c r).map keyOf := by
  by_cases h : keyOf r ∈ c.map keyOf
  · rw [upsert_map_keyOf_of_mem h]; exact h
  · rw [upsert_map_keyOf_of_not_mem h]; simp

theorem mem_map_keyOf_upsert {c : List ArchiveImage} {r : ArchiveImage}
    {k : String × String} (h : k ∈ c.map keyOf) :
    k ∈ (upsert c r).map keyOf := by
  by_cases hr : keyOf r ∈ c.map keyOf
  · rw [upsert_map_keyOf_of_mem hr]; exact h
  · rw [upsert_map_keyOf_of_not_mem hr]; exact List.mem_append_left _ h

theorem nodup_keys_upsert {c : List ArchiveImage} {r : ArchiveImage}
    (h : (c.map keyOf).Nodup) : ((upsert c r).map keyOf).Nodup := by
  by_cases hr : keyOf r ∈ c.map keyOf
  · rw [upsert_map_keyOf_of_mem hr]; exact h
  · rw [upsert_map_keyOf_of_not_mem hr]
    simp [List.nodup_append, h, hr]

theorem findRec_eq_find (c : List ArchiveImage) (k d : String) :
    findRec c k d = c.find? (fun x => x.station_key == k && x.date == d) := rfl

theorem find?_append_of_none {α : Type} {p : α → Bool} {l₁ l₂ : List α}
    (h : ∀ x ∈ l₁, p x = false) : (l₁ ++ l₂).find? p = l₂.find? p := by
  induction l₁ with
  | nil => rfl
  | cons x xs ih =>
    rw [List.cons_append, List.find?_cons_of_neg, ih]
    · intro y hy
      exact h y (List.mem_cons_of_mem _ hy)
    · simp [h x (List.mem_cons_self x xs)]

theorem findRec_upsert_self (c : List ArchiveImage) (r : ArchiveImage) :
    findRec (upsert c r) r.station_key r.date = some r := by
  have hpred : (r.station_key == r.station_key && r.date == r.date) = true := by simp
  rw [upsert]
  by_cases h : c.any (fun x => sameKey x r) = true
  · rw [if_pos h]
    induction c with
    | nil => simp at h
    | cons x xs ih =>
      by_cases hx : sameKey x r = true
      · rw [List.map_cons, if_pos hx, update_eq_of_sameKey hx, findRec]
        simp only [List.find?_cons, hpred]
      · have hxne : (x.station_key == r.station_key && x.date == r.date) = false := by
          simpa [sameKey, Bool.not_eq_true] using hx
        have h' : xs.any (fun x => sameKey x r) = true := by
          rcases List.any_eq_true.1 h with ⟨y, hy, hk⟩
          rcases List.mem_cons.1 hy with rfl | hy'
          · exact absurd hk hx
          · exact List.any_eq_true.2 ⟨y, hy', hk⟩
        rw [List.map_cons, if_neg hx, findRec]
        simp only [List.find?_cons, hxne]
        exact ih h'
  · rw [if_neg h, findRec, List.find?_append]
    have h1 : List.find? (fun x => x.station_key == r.station_key && x.date == r.date) c
        = none := by
      rw [List.find?_eq_none]
      intro x hx
      have hne : ¬ sameKey x r = true := fun hc =>
        h (List.any_eq_true.2 ⟨x, hx, by simpa using hc⟩)
      simpa [sameKey, Bool.not_eq_true] using hne
    simp only [h1, Option.none_or, List.find?_cons, hpred, List.find?_nil]

theorem find?_map_update (c : List ArchiveImage) (r : ArchiveImage) {k d : String}
    (hrk : (r.station_key == k && r.date == d) = false) :
    List.find? (fun x => x.station_key == k && x.date == d)
      (c.map (fun x => if sameKey x r = true then
        { x with image_name := r.image_name, country := r.country,
                 station := r.station, file_path := r.file_path } else x)) =
    List.find? (fun x => x.station_key == k && x.date == d) c := by
  induction c with
  | nil => rfl
  | cons x xs ih =>
    rw [List.map_cons]
    by_cases hx : sameKey x r = true
    · have hxk : (x.station_key == k && x.date == d) = false := by
        rcases (sameKey_iff x r).1 hx with ⟨h1, h2⟩
        rw [h1, h2]; exact hrk
      rw [if_pos hx, update_eq_of_sameKey hx]
      simp only [List.find?_cons, hxk, hrk]
      exact ih
    · rw [if_neg hx]
      simp only [List.find?_cons]
      by_cases hpx : (x.station_key == k && x.date == d) = true
      · simp only [hpx]
      · simp only [Bool.not_eq_true] at hpx
        simp only [hpx]
        exact ih

/-- An upsert of a row with a different `(station_key, date)` key leaves
the lookup of any other key unchanged. -/
theorem findRec_upsert_other {r : ArchiveImage} {k d : String}
    (c : List ArchiveImage) (h : ¬(r.station_key = k ∧ r.date = d)) :
    findRec (upsert c r) k d = findRec c k d := by
  have hrk : (r.station_key == k && r.date == d) = false := by
    rw [Bool.and_eq_false_iff]
    by_cases h1 : r.station_key = k
    · exact Or.inr (by simpa using fun h2 => h ⟨h1, h2⟩)
    · exact Or.inl (by simpa using h1)
  rw [upsert]
  by_cases hc : c.any (fun x => sameKey x r) = true
  · rw [if_pos hc]
    exact find?_map_update c r hrk
  · rw [if_neg hc, findRec, List.find?_append, findRec]
    simp only [List.find?_cons, hrk, List.find?_nil, Option.or_none]

theorem fsRead_fsWrite_self (fs : List (String × SrcFile)) (p : String) (f : SrcFile) :
    fsRead (fsWrite fs p f) p = some f := by
  rw [fsWrite]
  by_cases h : fs.any (fun e => e.1 == p) = true
  · rw [if_pos h]
    induction fs with
    | nil => simp at h
    | cons e es ih =>
      by_cases he : (e.1 == p) = true
      · rw [List.map_cons, if_pos he, fsRead]
        simp [List.find?_cons]
      · have h' : es.any (fun e => e.1 == p) = true := by
          rcases List.any_eq_true.1 h with ⟨y, hy, hk⟩
          rcases List.mem_cons.1 hy with rfl | hy'
          · exact absurd hk he
          · exact List.any_eq_true.2 ⟨y, hy', hk⟩
        simp only [Bool.not_eq_true] at he
        rw [List.map_cons, if_neg (by simp [he]), fsRead]
        simp only [List.find?_cons, he]
        exact ih h'
  · rw [if_neg h, fsRead, List.find?_append]
    have h1 : List.find? (fun e => e.1 == p) fs = none := by
      rw [List.find?_eq_none]
      intro x hx
      intro hc
      exact h (List.any_eq_true.2 ⟨x, hx, hc⟩)
    simp [h1, List.find?_cons]

theorem archive_file_of_good (cfg : StationCfg) (st : ArchState) (f : SrcFile)
    (h : f.bad = false) :
    archive_file (some f) cfg st = some (some (infoOf cfg f), applyArch cfg st f) := by
  rw [archive_file]
  simp [h]

theorem keysOf_applyArch_of_mem {cfg : StationCfg} {st : ArchState} {f : SrcFile}
    (h : keyOf (rowOf cfg f) ∈ keysOf st) :
    keysOf (applyArch cfg st f) = keysOf st :=
  upsert_map_keyOf_of_mem h

theorem mem_keysOf_applyArch {st : ArchState} {k : String × String}
    (cfg : StationCfg) (f : SrcFile) (h : k ∈ keysOf st) :
    k ∈ keysOf (applyArch cfg st f) :=
  mem_map_keyOf_upsert h

theorem keyOf_mem_keysOf_applyArch (cfg : StationCfg) (st : ArchState) (f : SrcFile) :
    keyOf (rowOf cfg f) ∈ keysOf (applyArch cfg st f) :=
  keyOf_mem_upsert st.catalog (rowOf cfg f)

theorem nodup_keysOf_applyArch {cfg : StationCfg} {st : ArchState} (f : SrcFile)
    (h : (keysOf st).Nodup) : (keysOf (applyArch cfg st f)).Nodup :=
  nodup_keys_upsert h

/-- Full characterisation of the backfill loop: the archived infos are
those of the non-failing files in processing order, a directory entry
survives exactly if no successfully archived file shares its name, the
state is the fold of the successful archivals, and one warning is
logged per failing file. -/
theorem sweepLoop_spec (cfg : StationCfg) (ps : List SrcFile) :
    ∀ (dir : List SrcFile) (st : ArchState) (acc : List ArchInfo) (log : List String),
    sweepLoop cfg ps dir st acc log =
      { archived := acc ++ (ps.filter (fun f => !f.bad)).map (infoOf cfg),
        dir := dir.filter (fun g => !(ps.any (fun f => !f.bad && g.name == f.name))),
        st := (ps.filter (fun f => !f.bad)).foldl (applyArch cfg) st,
        log := log ++ (ps.filter (fun f => f.bad)).map warnOf } := by
  induction ps with
  | nil => intro dir st acc log; simp [sweepLoop]
  | cons src rest ih =>
    intro dir st acc log
    by_cases hb : src.bad = true
    · have h1 : (src :: rest).filter (fun f => !f.bad) = rest.filter (fun f => !f.bad) := by
        simp [hb]
      have h2 : (src :: rest).filter (fun f => f.bad) = src :: rest.filter (fun f => f.bad) := by
        simp [hb]
      have hstep : sweepLoop cfg (src :: rest) dir st acc log =
          sweepLoop cfg rest dir st acc (log ++ [warnOf src]) := by
        rw [sweepLoop, archive_file]
        simp only [hb]
        rfl
      rw [hstep, ih, h1, h2]
      simp only [SweepOut.mk.injEq, true_and, and_true]
      refine ⟨?_, ?_⟩
      · apply List.filter_congr
        intro g _
        simp [hb]
      · simp [List.append_assoc]
    · simp only [Bool.not_eq_true] at hb
      have h1 : (src :: rest).filter (fun f => !f.bad) =
          src :: rest.filter (fun f => !f.bad) := by simp [hb]
      have h2 : (src :: rest).filter (fun f => f.bad) = rest.filter (fun f => f.bad) := by
        simp [hb]
      have hstep : sweepLoop cfg (src :: rest) dir st acc log =
          sweepLoop cfg rest (dir.filter (fun g => g.name != src.name))
            (applyArch cfg st src) (acc ++ [infoOf cfg src]) log := by
        rw [sweepLoop, archive_file_of_good cfg st src hb]
      rw [hstep, ih, h1, h2]
      simp only [SweepOut.mk.injEq, true_and, and_true]
      refine ⟨by simp, ?_, rfl⟩
      · rw [List.filter_filter]
        apply List.filter_congr
        intro g _
        simp only [List.any_cons, hb, Bool.not_false, Bool.true_and, Bool.not_or, bne,
          Bool.and_comm]

/-- Full characterisation of one backfill sweep in terms of the
directory contents (absent directory = empty after `mkdir`). -/
theorem archive_only_spec (cfg : StationCfg) (w : StWorld) (st : ArchState) :
    archive_only_from_old_incoming cfg w st =
      (some (((sortedPngs (w.oldIncomingDir.getD [])).filter
                (fun f => !f.bad)).map (infoOf cfg)),
       { w with oldIncomingDir := some ((w.oldIncomingDir.getD []).filter
           (fun g => !((sortedPngs (w.oldIncomingDir.getD [])).any
             (fun f => !f.bad && g.name == f.name)))) },
       ((sortedPngs (w.oldIncomingDir.getD [])).filter
          (fun f => !f.bad)).foldl (applyArch cfg) st,
       ((sortedPngs (w.oldIncomingDir.getD [])).filter
          (fun f => f.bad)).map warnOf) := by
  obtain ⟨inc, cur, old, ok⟩ := w
  simp only [archive_only_from_old_incoming, ensure_dirs_for_station]
  rw [sweepLoop_spec]
  simp

theorem findRec_foldl_applyArch_of_ne (cfg : StationCfg) (ps : List SrcFile)
    (st : ArchState) {D : String}
    (h : ∀ f ∈ ps, utc_date_from_mtime f.mtime ≠ D) :
    findRec (ps.foldl (applyArch cfg) st).catalog cfg.key D =
      findRec st.catalog cfg.key D := by
  induction ps generalizing st with
  | nil => rfl
  | cons f rest ih =>
    rw [List.foldl_cons, ih _ (fun g hg => h g (List.mem_cons_of_mem _ hg))]
    exact findRec_upsert_other st.catalog
      (fun hc => h f (List.mem_cons_self f rest) hc.2)

/-- Last write wins: folding the archivals of a list sorted by ascending
mtime with pairwise-distinct mtimes leaves, for the day of a file `f`
of maximal mtime on its day, exactly `f`'s catalog row. -/
theorem findRec_foldl_applyArch_max (cfg : StationCfg) (ps : List SrcFile)
    (st : ArchState) (f : SrcFile)
    (hsort : ps.Pairwise mtimeLE)
    (hnd : ps.Pairwise (fun a b => a.mtime ≠ b.mtime))
    (hmem : f ∈ ps)
    (hmax : ∀ g ∈ ps,
      utc_date_from_mtime g.mtime = utc_date_from_mtime f.mtime →
        g.mtime ≤ f.mtime) :
    findRec (ps.foldl (applyArch cfg) st).catalog cfg.key
        (utc_date_from_mtime f.mtime) = some (rowOf cfg f) := by
  induction ps generalizing st with
  | nil => cases hmem
  | cons x rest ih =>
    rcases List.mem_cons.1 hmem with rfl | hmem'
    · have hrest : ∀ g ∈ rest,
          utc_date_from_mtime g.mtime ≠ utc_date_from_mtime f.mtime := by
        intro g hg hd
        have h1 : g.mtime ≤ f.mtime := hmax g (List.mem_cons_of_mem _ hg) hd
        have h2 : f.mtime ≤ g.mtime := (List.pairwise_cons.1 hsort).1 g hg
        have h3 : f.mtime ≠ g.mtime := (List.pairwise_cons.1 hnd).1 g hg
        exact h3 (Nat.le_antisymm h2 h1)
      rw [List.foldl_cons, findRec_foldl_applyArch_of_ne cfg rest _ hrest]
      have := findRec_upsert_self st.catalog (rowOf cfg f)
      simpa [rowOf] using this
    · exact ih (applyArch cfg st x) ((List.pairwise_cons.1 hsort).2)
        ((List.pairwise_cons.1 hnd).2) hmem'
        (fun g hg hd => hmax g (List.mem_cons_of_mem _ hg) hd)

theorem mirror_none_case (cfg : StationCfg) {w : StWorld} (st : ArchState)
    (h : w.incoming = none) :
    mirror_current_and_archive cfg w st =
      some (none, ensure_dirs_for_station w, st) := by
  obtain ⟨inc, cur, old, ok⟩ := w
  cases h
  rfl

theorem mirror_some_good (cfg : StationCfg) {w : StWorld} (st : ArchState)
    {src : SrcFile} (h : w.incoming = some src) (hb : src.bad = false) :
    mirror_current_and_archive cfg w st =
      some (some (infoOf cfg src),
        (if is_newer_than_current src.mtime w.current w.statOk then
          { ensure_dirs_for_station w with current := some (mkCurrent src) }
        else ensure_dirs_for_station w),
        applyArch cfg st src) := by
  obtain ⟨inc, cur, old, ok⟩ := w
  cases h
  simp only [mirror_current_and_archive, ensure_dirs_for_station,
    archive_file, hb, Bool.false_eq_true, if_false]

theorem mirror_some_bad (cfg : StationCfg) {w : StWorld} (st : ArchState)
    {src : SrcFile} (h : w.incoming = some src) (hb : src.bad = true) :
    mirror_current_and_archive cfg w st = none := by
  obtain ⟨inc, cur, old, ok⟩ := w
  cases h
  simp only [mirror_current_and_archive, ensure_dirs_for_station,
    archive_file, hb, if_true]

theorem keySub_rfl (st : ArchState) : keySub st st := fun _ h => h

theorem keySub_trans {s1 s2 s3 : ArchState} (h1 : keySub s1 s2)
    (h2 : keySub s2 s3) : keySub s1 s3 := fun k h => h2 k (h1 k h)

theorem keySub_applyArch (cfg : StationCfg) (st : ArchState) (f : SrcFile) :
    keySub st (applyArch cfg st f) := fun _ h => mem_keysOf_applyArch cfg f h

theorem keySub_foldl (cfg : StationCfg) (ps : List SrcFile) (st : ArchState) :
    keySub st (ps.foldl (applyArch cfg) st) := by
  induction ps generalizing st with
  | nil => exact keySub_rfl st
  | cons f rest ih =>
    exact keySub_trans (keySub_applyArch cfg st f) (ih (applyArch cfg st f))

theorem keySub_mirror {cfg : StationCfg} {w : StWorld} {st : ArchState}
    {info : Option ArchInfo} {w' : StWorld} {st' : ArchState}
    (h : mirror_current_and_archive cfg w st = some (info, w', st')) :
    keySub st st' := by
  cases hin : w.incoming with
  | none =>
    rw [mirror_none_case cfg st hin] at h
    cases h
    exact keySub_rfl st
  | some src =>
    cases hb : src.bad with
    | false =>
      rw [mirror_some_good cfg st hin hb] at h
      cases h
      exact keySub_applyArch cfg st src
    | true => rw [mirror_some_bad cfg st hin hb] at h; cases h

theorem keySub_archive_only (cfg : StationCfg) (w : StWorld) (st : ArchState) :
    keySub st (archive_only_from_old_incoming cfg w st).2.2.1 := by
  rw [archive_only_spec]
  exact keySub_foldl cfg _ st

theorem keySub_phase1 {rows : List StRow} {st : ArchState} {rows' : List StRow}
    {st' : ArchState} {c : List ArchInfo}
    (h : phase1 rows st = some (rows', st', c)) : keySub st st' := by
  induction rows generalizing st rows' c with
  | nil => cases h; exact keySub_rfl st'
  | cons r rs ih =>
    rw [phase1] at h
    cases hm : mirror_current_and_archive r.cfg r.w st with
    | none => rw [hm] at h; cases h
    | some out =>
      obtain ⟨info, w1, st1⟩ := out
      rw [hm] at h
      dsimp only at h
      cases hp : phase1 rs st1 with
      | none => rw [hp] at h; cases h
      | some out2 =>
        obtain ⟨rs', st'', created⟩ := out2
        rw [hp] at h
        cases h
        exact keySub_trans (keySub_mirror hm) (ih hp)

theorem keySub_phase2 {rows : List StRow} {st : ArchState} {rows' : List StRow}
    {st' : ArchState} {o : List ArchInfo}
    (h : phase2 rows st = some (rows', st', o)) : keySub st st' := by
  induction rows generalizing st rows' o with
  | nil => cases h; exact keySub_rfl st'
  | cons r rs ih =>
    rw [phase2] at h
    cases ha : archive_only_from_old_incoming r.cfg r.w st with
    | mk fst rest =>
      obtain ⟨w1, st1, log⟩ := rest
      cases fst with
      | none => rw [ha] at h; cases h
      | some l =>
        rw [ha] at h
        dsimp only at h
        cases hp : phase2 rs st1 with
        | none => rw [hp] at h; cases h
        | some out2 =>
          obtain ⟨rs', st'', acc⟩ := out2
          rw [hp] at h
          cases h
          have h1 : keySub st st1 := by
            have := keySub_archive_only r.cfg r.w st
            rw [ha] at this
            exact this
          exact keySub_trans h1 (ih hp)

theorem nodup_keysOf_foldl {cfg : StationCfg} (ps : List SrcFile)
    {st : ArchState} (h : (keysOf st).Nodup) :
    (keysOf (ps.foldl (applyArch cfg) st)).Nodup := by
  induction ps generalizing st with
  | nil => exact h
  | cons f rest ih => exact ih (nodup_keysOf_applyArch f h)

theorem nodup_keysOf_mirror {cfg : StationCfg} {w : StWorld} {st : ArchState}
    {info : Option ArchInfo} {w' : StWorld} {st' : ArchState}
    (hm : mirror_current_and_archive cfg w st = some (info, w', st'))
    (h : (keysOf st).Nodup) : (keysOf st').Nodup := by
  cases hin : w.incoming with
  | none => rw [mirror_none_case cfg st hin] at hm; cases hm; exact h
  | some src =>
    cases hb : src.bad with
    | false =>
      rw [mirror_some_good cfg st hin hb] at hm
      cases hm
      exact nodup_keysOf_applyArch src h
    | true => rw [mirror_some_bad cfg st hin hb] at hm; cases hm

theorem nodup_keysOf_archive_only (cfg : StationCfg) (w : StWorld)
    {st : ArchState} (h : (keysOf st).Nodup) :
    (keysOf (archive_only_from_old_incoming cfg w st).2.2.1).Nodup := by
  rw [archive_only_spec]
  exact nodup_keysOf_foldl _ h

theorem nodup_keysOf_applyOp {st : ArchState} (op : ScanOp)
    (h : (keysOf st).Nodup) : (keysOf (applyOp st op)).Nodup := by
  cases op with
  | mirrorOp cfg w =>
    rw [applyOp]
    cases hm : mirror_current_and_archive cfg w st with
    | none => exact h
    | some out =>
      obtain ⟨info, w', st'⟩ := out
      exact nodup_keysOf_mirror hm h
  | backfillOp cfg w => exact nodup_keysOf_archive_only cfg w h
  | archiveOp cfg src =>
    rw [applyOp]
    cases src with
    | none => exact h
    | some f =>
      cases hb : f.bad with
      | false =>
        rw [archive_file_of_good cfg st f hb]
        exact nodup_keysOf_applyArch f h
      | true =>
        rw [archive_file]
        simp only [hb, if_true]
        exact h

theorem nodup_keysOf_foldl_applyOp (ops : List ScanOp) :
    ∀ {st : ArchState}, (keysOf st).Nodup →
      (keysOf (ops.foldl applyOp st)).Nodup := by
  induction ops with
  | nil => intro st h; exact h
  | cons op rest ih =>
    intro st h
    exact ih (nodup_keysOf_applyOp op h)

theorem nodup_keysOf_scan_ops (ops : List ScanOp) :
    (keysOf (ops.foldl applyOp initState)).Nodup :=
  nodup_keysOf_foldl_applyOp ops List.nodup_nil

theorem length_filter_key_le_one {c : List ArchiveImage} {S D : String}
    (h : (c.map keyOf).Nodup) :
    (c.filter (fun r => r.station_key == S && r.date == D)).length ≤ 1 := by
  induction c with
  | nil => simp
  | cons x xs ih =>
    rw [List.map_cons, List.nodup_cons] at h
    by_cases hx : (x.station_key == S && x.date == D) = true
    · simp only [List.filter_cons, hx, if_true]
      have hkey : keyOf x = (S, D) := by
        simp only [Bool.and_eq_true, beq_iff_eq] at hx
        simp [keyOf, hx.1, hx.2]
      have : xs.filter (fun r => r.station_key == S && r.date == D) = [] := by
        rw [List.filter_eq_nil_iff]
        intro y hy hc
        apply h.1
        have hkey' : keyOf y = (S, D) := by
          simp only [Bool.and_eq_true, beq_iff_eq] at hc
          simp [keyOf, hc.1, hc.2]
        rw [← hkey] at hkey'
        exact hkey' ▸ List.mem_map_of_mem keyOf hy
      simp [this]
    · simp only [Bool.not_eq_true] at hx
      simp only [List.filter_cons, hx]
      exact ih h.2

theorem ensure_eq_of_some {w : StWorld} {l : List SrcFile}
    (h : w.oldIncomingDir = some l) : ensure_dirs_for_station w = w := by
  obtain ⟨inc, cur, old, ok⟩ := w
  cases h
  rfl

theorem with_old_eq_self {w : StWorld} {l : List SrcFile}
    (h : w.oldIncomingDir = some l) :
    { w with oldIncomingDir := some l } = w := by
  obtain ⟨inc, cur, old, ok⟩ := w
  cases h
  rfl

theorem is_newer_some_iff (m : Nat) (c : SrcFile) (ok : Bool) :
    is_newer_than_current m (some c) ok = true ↔ ok = true ∧ c.mtime < m := by
  cases ok <;> simp [is_newer_than_current]

/-- After a successful mirror invocation the station is settled: its
incoming file (unchanged) is no longer strictly newer than `current`,
and its catalog key is present. -/
theorem mirror_after {cfg : StationCfg} {w : StWorld} {st : ArchState}
    {info : Option ArchInfo} {w' : StWorld} {st' : ArchState}
    (hm : mirror_current_and_archive cfg w st = some (info, w', st')) :
    w'.incoming = w.incoming ∧ w'.statOk = w.statOk ∧
      mirrorSettled ⟨cfg, w'⟩ ∧ rowKey ⟨cfg, w'⟩ st' := by
  obtain ⟨inc, cur, old, ok⟩ := w
  cases hin : inc with
  | none =>
    rw [mirror_none_case cfg st hin] at hm
    cases hm
    cases hin
    refine ⟨rfl, rfl, ?_, ?_⟩ <;>
      · intro src hsrc
        simp [ensure_dirs_for_station] at hsrc
  | some src =>
    cases hb : src.bad with
    | true => rw [mirror_some_bad cfg st hin hb] at hm; cases hm
    | false =>
      rw [mirror_some_good cfg st hin hb] at hm
      cases hm
      cases hin
      by_cases hnew :
          is_newer_than_current src.mtime cur ok = true
      · rw [if_pos hnew]
        refine ⟨rfl, rfl, ?_, ?_⟩
        · intro src' hsrc'
          simp only [ensure_dirs_for_station] at hsrc'
          cases Option.some.inj hsrc'
          refine ⟨hb, ?_⟩
          cases ok <;> simp [is_newer_than_current, mkCurrent, ensure_dirs_for_station]
        · intro src' hsrc'
          simp only [ensure_dirs_for_station] at hsrc'
          cases Option.some.inj hsrc'
          exact keyOf_mem_keysOf_applyArch cfg st _
      · rw [if_neg hnew]
        refine ⟨rfl, rfl, ?_, ?_⟩
        · intro src' hsrc'
          simp only [ensure_dirs_for_station] at hsrc'
          cases Option.some.inj hsrc'
          refine ⟨hb, ?_⟩
          simpa [ensure_dirs_for_station, Bool.not_eq_true] using hnew
        · intro src' hsrc'
          simp only [ensure_dirs_for_station] at hsrc'
          cases Option.some.inj hsrc'
          exact keyOf_mem_keysOf_applyArch cfg st _

/-- Every `.png` left in the directory after a sweep fails to archive
(good `.png`s are deleted because each deletes its own name). -/
theorem dir_after_all_bad (files : List SrcFile) :
    ∀ g ∈ files.filter (fun g => !((sortedPngs files).any
        (fun f => !f.bad && g.name == f.name))),
      isPng g = true → g.bad = true := by
  intro g hg hpng
  by_contra hbad
  rw [Bool.not_eq_true] at hbad
  rw [List.mem_filter] at hg
  obtain ⟨hgf, hsurv⟩ := hg
  have hmem : g ∈ sortedPngs files := by
    rw [sortedPngs, List.mem_insertionSort mtimeLE]
    exact List.mem_filter.2 ⟨hgf, hpng⟩
  have hany : (sortedPngs files).any (fun f => !f.bad && g.name == f.name) = true :=
    List.any_eq_true.2 ⟨g, hmem, by simp [hbad]⟩
  rw [hany] at hsurv
  cases hsurv

/-- Phase 1 leaves every station mirror-settled and its key present. -/
theorem phase1_establishes {rows : List StRow} {st : ArchState}
    {rows' : List StRow} {st' : ArchState} {c : List ArchInfo}
    (h : phase1 rows st = some (rows', st', c)) :
    ∀ r' ∈ rows', mirrorSettled r' ∧ rowKey r' st' := by
  induction rows generalizing st rows' c with
  | nil => cases h; intro r hr; cases hr
  | cons r rs ih =>
    rw [phase1] at h
    cases hm : mirror_current_and_archive r.cfg r.w st with
    | none => rw [hm] at h; cases h
    | some out =>
      obtain ⟨info, w1, st1⟩ := out
      rw [hm] at h
      dsimp only at h
      cases hp : phase1 rs st1 with
      | none => rw [hp] at h; cases h
      | some out2 =>
        obtain ⟨rs', st'', created⟩ := out2
        rw [hp] at h
        cases h
        intro r' hr'
        rcases List.mem_cons.1 hr' with rfl | hr''
        · obtain ⟨_, _, hset, hkey⟩ := mirror_after hm
          refine ⟨hset, ?_⟩
          intro src hsrc
          exact keySub_phase1 hp _ (hkey src hsrc)
        · exact ih hp r' hr''

/-- Phase 2 preserves each station's mirror-relevant fields and leaves
its old-incoming directory containing only failing `.png`s. -/
theorem phase2_establishes {rows : List StRow} {st : ArchState}
    {rows' : List StRow} {st' : ArchState} {o : List ArchInfo}
    (h : phase2 rows st = some (rows', st', o)) :
    List.Forall₂ (fun r r' : StRow => r'.cfg = r.cfg ∧
      r'.w.incoming = r.w.incoming ∧ r'.w.current = r.w.current ∧
      r'.w.statOk = r.w.statOk ∧ oldSettled r') rows rows' := by
  induction rows generalizing st rows' o with
  | nil => cases h; exact List.Forall₂.nil
  | cons r rs ih =>
    rw [phase2] at h
    rw [archive_only_spec] at h
    dsimp only at h
    cases hp : phase2 rs (((sortedPngs (r.w.oldIncomingDir.getD [])).filter
        (fun f => !f.bad)).foldl (applyArch r.cfg) st) with
    | none => rw [hp] at h; cases h
    | some out2 =>
      obtain ⟨rs', st'', acc⟩ := out2
      rw [hp] at h
      cases h
      refine List.Forall₂.cons ?_ (ih hp)
      refine ⟨rfl, rfl, rfl, rfl, ?_⟩
      exact ⟨_, rfl, dir_after_all_bad _⟩

/-- A backfill sweep over a directory whose `.png`s all fail is a no-op
on the world and the state. -/
theorem archive_only_settled {cfg : StationCfg} {w : StWorld} {st : ArchState}
    {l : List SrcFile} (hl : w.oldIncomingDir = some l)
    (hbad : ∀ g ∈ l, isPng g = true → g.bad = true) :
    archive_only_from_old_incoming cfg w st =
      (some [], w, st, ((sortedPngs l).filter (fun f => f.bad)).map warnOf) := by
  have hmem_png : ∀ f ∈ sortedPngs l, f.bad = true := by
    intro f hf
    rw [sortedPngs, List.mem_insertionSort mtimeLE, List.mem_filter] at hf
    exact hbad f hf.1 hf.2
  have hfilter_png : (sortedPngs l).filter (fun f => !f.bad) = [] := by
    rw [List.filter_eq_nil_iff]
    intro f hf
    simp [hmem_png f hf]
  have hany : ∀ g ∈ l,
      (!((sortedPngs l).any (fun f => !f.bad && g.name == f.name))) = true := by
    intro g _
    rw [Bool.not_eq_true']
    rw [List.any_eq_false]
    intro f hf
    simp [hmem_png f hf]
  rw [archive_only_spec, hl]
  simp only [Option.getD_some, hfilter_png, List.map_nil, List.foldl_nil]
  rw [List.filter_eq_self.2 hany, with_old_eq_self hl]

/-- Phase 2 over settled stations changes nothing. -/
theorem phase2_settled (rows : List StRow) (st : ArchState)
    (h : ∀ r ∈ rows, oldSettled r) :
    ∃ o, phase2 rows st = some (rows, st, o) := by
  induction rows with
  | nil => exact ⟨[], rfl⟩
  | cons r rs ih =>
    obtain ⟨l, hl, hbad⟩ := h r (List.mem_cons_self r rs)
    obtain ⟨o, ho⟩ := ih (fun r' hr' => h r' (List.mem_cons_of_mem _ hr'))
    rw [phase2, archive_only_settled hl hbad]
    dsimp only
    rw [ho]
    exact ⟨[] ++ o, rfl⟩

/-- Phase 1 over settled stations with present keys changes no world and
no catalog key. -/
theorem phase1_settled (rows : List StRow) :
    ∀ (st : ArchState),
    (∀ r ∈ rows, mirrorSettled r ∧ oldSettled r ∧ rowKey r st) →
    ∃ st' c, phase1 rows st = some (rows, st', c) ∧ keysOf st' = keysOf st := by
  induction rows with
  | nil => intro st _; exact ⟨st, [], rfl, rfl⟩
  | cons r rs ih =>
    intro st h
    obtain ⟨hms, hos, hrk⟩ := h r (List.mem_cons_self r rs)
    obtain ⟨l, hl, _⟩ := hos
    have hens : ensure_dirs_for_station r.w = r.w := ensure_eq_of_some hl
    cases hin : r.w.incoming with
    | none =>
      obtain ⟨st', c, hp, hk⟩ := ih st
        (fun r' hr' => h r' (List.mem_cons_of_mem _ hr'))
      rw [phase1, mirror_none_case r.cfg st hin, hens]
      dsimp only
      rw [hp]
      exact ⟨st', c, rfl, hk⟩
    | some src =>
      obtain ⟨hb, hnn⟩ := hms src hin
      have hkeq : keysOf (applyArch r.cfg st src) = keysOf st :=
        keysOf_applyArch_of_mem (hrk src hin)
      have htail : ∀ r' ∈ rs, mirrorSettled r' ∧ oldSettled r' ∧
          rowKey r' (applyArch r.cfg st src) := by
        intro r' hr'
        obtain ⟨h1, h2, h3⟩ := h r' (List.mem_cons_of_mem _ hr')
        refine ⟨h1, h2, ?_⟩
        intro src' hsrc'
        rw [hkeq]
        exact h3 src' hsrc'
      obtain ⟨st', c, hp, hk⟩ := ih (applyArch r.cfg st src) htail
      rw [phase1, mirror_some_good r.cfg st hin hb, if_neg (by rw [hnn]; simp),
        hens]
      dsimp only
      rw [hp]
      refine ⟨st', (infoOf r.cfg src) :: c, rfl, ?_⟩
      rw [hk, hkeq]

theorem forall₂_mem_right {α β : Type} {R : α → β → Prop} :
    ∀ {l₁ : List α} {l₂ : List β}, List.Forall₂ R l₁ l₂ →
      ∀ b ∈ l₂, ∃ a ∈ l₁, R a b := by
  intro l₁ l₂ h
  induction h with
  | nil => intro b hb; cases hb
  | cons hr _ ih =>
    intro b hb
    rcases List.mem_cons.1 hb with rfl | hb'
    · exact ⟨_, List.mem_cons_self _ _, hr⟩
    · obtain ⟨a, ha, hab⟩ := ih b hb'
      exact ⟨a, List.mem_cons_of_mem _ ha, hab⟩

/-- C4: running a scan pass twice in succession with no change to any
incoming or old-incoming file between the passes leaves every station's
current file unchanged (indeed every station world unchanged), creates
no new catalog records — the second pass only re-upserts onto existing
`(station_key, date)` keys, so the key list is unchanged — and raises no
errors (the second pass returns `some`). -/
theorem c4_scan_pass_idempotent (rows : List StRow) (st : ArchState)
    (rows₁ : List StRow) (st₁ : ArchState) (c₁ o₁ : List ArchInfo)
    (h : scan_cmd rows st = some (rows₁, st₁, c₁, o₁)) :
    ∃ rows₂ st₂ c₂ o₂, scan_cmd rows₁ st₁ = some (rows₂, st₂, c₂, o₂) ∧
      rows₂ = rows₁ ∧
      rows₂.map (fun r => r.w.current) = rows₁.map (fun r => r.w.current) ∧
      keysOf st₂ = keysOf st₁ := by
  rw [scan_cmd] at h
  cases h1 : phase1 rows st with
  | none => rw [h1] at h; cases h
  | some outA =>
    obtain ⟨rowsA, stA, cA⟩ := outA
    rw [h1] at h
    dsimp only at h
    cases h2 : phase2 rowsA stA with
    | none => rw [h2] at h; cases h
    | some outB =>
      obtain ⟨rowsB, stB, oB⟩ := outB
      rw [h2] at h
      cases h
      have hA := phase1_establishes h1
      have hB := phase2_establishes h2
      have hks := keySub_phase2 h2
      have hall : ∀ r' ∈ rows₁, mirrorSettled r' ∧ oldSettled r' ∧
          rowKey r' st₁ := by
        intro r' hr'
        obtain ⟨r, hr, hcfg, hinc, hcur, hok, hos⟩ :=
          forall₂_mem_right hB r' hr'
        obtain ⟨hms, hrk⟩ := hA r hr
        refine ⟨?_, hos, ?_⟩
        · intro src hsrc
          rw [hinc] at hsrc
          obtain ⟨hb, hnn⟩ := hms src hsrc
          refine ⟨hb, ?_⟩
          rw [hcur, hok]
          exact hnn
        · intro src hsrc
          rw [hinc] at hsrc
          rw [hcfg]
          exact hks _ (hrk src hsrc)
      obtain ⟨st2, c2, hp1, hk1⟩ := phase1_settled rows₁ st₁
        (fun r hr => hall r hr)
      obtain ⟨o2, hp2⟩ := phase2_settled rows₁ st2
        (fun r hr => (hall r hr).2.1)
      refine ⟨rows₁, st2, c2, o2, ?_, rfl, rfl, hk1⟩
      rw [scan_cmd, hp1]
      dsimp only
      rw [hp2]

/-- Witness for C4: both scans evaluate on a concrete one-station input. -/
theorem c4_scan_pass_idempotent_witness :
    scan_cmd wrows0 initState = some (wrows1, wst1, [winfo], []) ∧
    ∃ rows₂ st₂ c₂ o₂, scan_cmd wrows1 wst1 = some (rows₂, st₂, c₂, o₂) ∧
      rows₂ = wrows1 ∧
      rows₂.map (fun r => r.w.current) = wrows1.map (fun r => r.w.current) ∧
      keysOf st₂ = keysOf wst1 :=
  ⟨by decide,
   c4_scan_pass_idempotent wrows0 initState wrows1 wst1 [winfo] [] (by decide)⟩

/-- C1: after any sequence of scan invocations — mirror ticks, backfill
sweeps and bare archive calls, in any order, over any worlds — starting
from the freshly initialised store, the catalog holds at most one record
per `(station_key, date)` pair. -/
theorem c1_catalog_unique_per_station_day (ops : List ScanOp) (S D : String) :
    ((ops.foldl applyOp initState).catalog.filter
      (fun r => r.station_key == S && r.date == D)).length ≤ 1 :=
  length_filter_key_le_one (nodup_keysOf_scan_ops ops)

/-- C2: one backfill sweep over a directory of `.png` files that all
archive successfully processes them in ascending modification-time
order, returns exactly their infos in that order, leaves the directory
empty, and leaves for each UTC day present the catalog row of the
chronologically last (greatest-mtime) file of that day. -/
theorem c2_backfill_drains (cfg : StationCfg) (w : StWorld) (st : ArchState)
    (files : List SrcFile)
    (hdir : w.oldIncomingDir = some files)
    (hall : ∀ f ∈ files, isPng f = true ∧ f.bad = false)
    (hnd : files.Pairwise (fun a b => a.mtime ≠ b.mtime)) :
    ∃ st' log,
      archive_only_from_old_incoming cfg w st =
        (some ((sortedPngs files).map (infoOf cfg)),
         { w with oldIncomingDir := some [] }, st', log) ∧
      (sortedPngs files).Sorted mtimeLE ∧
      (sortedPngs files).Perm files ∧
      ∀ f ∈ files,
        (∀ g ∈ files,
          utc_date_from_mtime g.mtime = utc_date_from_mtime f.mtime →
            g.mtime ≤ f.mtime) →
        findRec st'.catalog cfg.key
            (utc_date_from_mtime f.mtime) = some (rowOf cfg f) := by
  have hpng : files.filter isPng = files :=
    List.filter_eq_self.2 (fun f hf => (hall f hf).1)
  have hperm : (sortedPngs files).Perm files := by
    rw [sortedPngs, hpng]
    exact List.perm_insertionSort mtimeLE files
  have hmem_files : ∀ f ∈ sortedPngs files, f ∈ files :=
    fun f hf => hperm.mem_iff.1 hf
  have hgood : (sortedPngs files).filter (fun f => !f.bad) = sortedPngs files := by
    apply List.filter_eq_self.2
    intro f hf
    simp [(hall f (hmem_files f hf)).2]
  have hsort : (sortedPngs files).Sorted mtimeLE := by
    rw [sortedPngs]
    exact List.sorted_insertionSort mtimeLE (files.filter isPng)
  have hdir' : files.filter (fun g => !((sortedPngs files).any
      (fun f => !f.bad && g.name == f.name))) = [] := by
    rw [List.filter_eq_nil_iff]
    intro g hg
    have hgmem : g ∈ sortedPngs files := by
      rw [sortedPngs, List.mem_insertionSort mtimeLE, List.mem_filter]
      exact ⟨hg, (hall g hg).1⟩
    have : (sortedPngs files).any (fun f => !f.bad && g.name == f.name) = true :=
      List.any_eq_true.2 ⟨g, hgmem, by simp [(hall g hg).2]⟩
    simp [this]
  refine ⟨((sortedPngs files).filter (fun f => !f.bad)).foldl (applyArch cfg) st,
    ((sortedPngs files).filter (fun f => f.bad)).map warnOf, ?_, hsort, hperm, ?_⟩
  · rw [archive_only_spec, hdir]
    simp only [Option.getD_some]
    rw [hgood, hdir']
  · intro f hf hmax
    have hndp : (sortedPngs files).Pairwise (fun a b => a.mtime ≠ b.mtime) :=
      (List.Perm.pairwise_iff (fun h => h.symm) hperm).2 hnd
    rw [hgood]
    exact findRec_foldl_applyArch_max cfg (sortedPngs files) st f hsort hndp
      (hperm.mem_iff.2 hf)
      (fun g hg hd => hmax g (hmem_files g hg) hd)

theorem forall₂_comp {α β γ : Type} {R : α → β → Prop} {S : β → γ → Prop}
    {T : α → γ → Prop} (h : ∀ a b c, R a b → S b c → T a c) :
    ∀ {l₁ : List α} {l₂ : List β} {l₃ : List γ},
      List.Forall₂ R l₁ l₂ → List.Forall₂ S l₂ l₃ → List.Forall₂ T l₁ l₃ := by
  intro l₁ l₂ l₃ h12
  induction h12 generalizing l₃ with
  | nil =>
    intro h23
    cases h23
    exact List.Forall₂.nil
  | cons hr _ ih =>
    intro h23
    cases h23 with
    | cons hs h23' => exact List.Forall₂.cons (h _ _ _ hr hs) (ih h23')

theorem phase1_current_mono {rows : List StRow} {st : ArchState}
    {rows' : List StRow} {st' : ArchState} {c : List ArchInfo}
    (h : phase1 rows st = some (rows', st', c)) :
    List.Forall₂ (fun r r' : StRow => ∀ cf, r.w.current = some cf →
      ∃ cf', r'.w.current = some cf' ∧ cf.mtime ≤ cf'.mtime) rows rows' := by
  induction rows generalizing st rows' c with
  | nil => cases h; exact List.Forall₂.nil
  | cons r rs ih =>
    rw [phase1] at h
    cases hm : mirror_current_and_archive r.cfg r.w st with
    | none => rw [hm] at h; cases h
    | some out =>
      obtain ⟨info, w1, st1⟩ := out
      rw [hm] at h
      dsimp only at h
      cases hp : phase1 rs st1 with
      | none => rw [hp] at h; cases h
      | some out2 =>
        obtain ⟨rs', st'', created⟩ := out2
        rw [hp] at h
        cases h
        refine List.Forall₂.cons ?_ (ih hp)
        intro cf hcf
        cases hin : r.w.incoming with
        | none =>
          rw [mirror_none_case r.cfg st hin] at hm
          cases hm
          exact ⟨cf, hcf, Nat.le_refl _⟩
        | some src =>
          cases hb : src.bad with
          | true => rw [mirror_some_bad r.cfg st hin hb] at hm; cases hm
          | false =>
            rw [mirror_some_good r.cfg st hin hb] at hm
            cases hm
            by_cases hnew :
                is_newer_than_current src.mtime r.w.current r.w.statOk = true
            · rw [if_pos hnew]
              rw [hcf] at hnew
              obtain ⟨_, hlt⟩ := (is_newer_some_iff _ _ _).1 hnew
              exact ⟨mkCurrent src, rfl, Nat.le_of_lt hlt⟩
            · rw [if_neg hnew]
              exact ⟨cf, hcf, Nat.le_refl _⟩

/-- Across one whole scan pass the current file's mtime never
decreases, station by station. -/
theorem scan_current_mono {rows : List StRow} {st : ArchState}
    {rows' : List StRow} {st' : ArchState} {c o : List ArchInfo}
    (h : scan_cmd rows st = some (rows', st', c, o)) :
    List.Forall₂ (fun r r' : StRow => ∀ cf, r.w.current = some cf →
      ∃ cf', r'.w.current = some cf' ∧ cf.mtime ≤ cf'.mtime) rows rows' := by
  rw [scan_cmd] at h
  cases h1 : phase1 rows st with
  | none => rw [h1] at h; cases h
  | some outA =>
    obtain ⟨rowsA, stA, cA⟩ := outA
    rw [h1] at h
    dsimp only at h
    cases h2 : phase2 rowsA stA with
    | none => rw [h2] at h; cases h
    | some outB =>
      obtain ⟨rowsB, stB, oB⟩ := outB
      rw [h2] at h
      cases h
      refine forall₂_comp ?_ (phase1_current_mono h1) (phase2_establishes h2)
      intro a b cc hab hbc
      intro cf hcf
      obtain ⟨cf', hcf', hle⟩ := hab cf hcf
      exact ⟨cf', by rw [hbc.2.2.1]; exact hcf', hle⟩

theorem ensure_current (w : StWorld) :
    (ensure_dirs_for_station w).current = w.current := rfl

/-- C3: the mirror copies the incoming file over `current` exactly when
no current file exists or the incoming mtime is strictly greater (a
failed comparison counts as not newer); the copy preserves the source's
mtime and content; consequently the current file's mtime never
decreases across a scan pass, and a strictly older incoming file never
overwrites a newer current file. -/
theorem c3_mirror_monotonic (cfg : StationCfg) (w : StWorld) (st : ArchState)
    (src : SrcFile) (hin : w.incoming = some src) (hb : src.bad = false) :
    ∃ w' st',
      mirror_current_and_archive cfg w st =
        some (some (infoOf cfg src), w', st') ∧
      (is_newer_than_current src.mtime w.current w.statOk = true ↔
        (w.current = none ∨ (w.statOk = true ∧
          ∃ c, w.current = some c ∧ c.mtime < src.mtime))) ∧
      w'.current = (if is_newer_than_current src.mtime w.current w.statOk
        then some (mkCurrent src) else w.current) ∧
      (mkCurrent src).mtime = src.mtime ∧
      (mkCurrent src).content = src.content ∧
      (∀ c, w.current = some c →
        ∃ c', w'.current = some c' ∧ c.mtime ≤ c'.mtime) ∧
      (∀ c, w.current = some c → src.mtime < c.mtime →
        w'.current = w.current) ∧
      (∀ rows st₀ rows' st₀' cr old,
        scan_cmd rows st₀ = some (rows', st₀', cr, old) →
        List.Forall₂ (fun r r' : StRow => ∀ cf, r.w.current = some cf →
          ∃ cf', r'.w.current = some cf' ∧ cf.mtime ≤ cf'.mtime) rows rows') := by
  have hiff : is_newer_than_current src.mtime w.current w.statOk = true ↔
      (w.current = none ∨ (w.statOk = true ∧
        ∃ c, w.current = some c ∧ c.mtime < src.mtime)) := by
    cases hc : w.current with
    | none => simp [is_newer_than_current]
    | some c =>
      rw [is_newer_some_iff]
      constructor
      · rintro ⟨hok, hlt⟩
        exact Or.inr ⟨hok, c, rfl, hlt⟩
      · rintro (hnone | ⟨hok, c', hc', hlt⟩)
        · cases hnone
        · cases Option.some.inj hc'
          exact ⟨hok, hlt⟩
  refine ⟨(if is_newer_than_current src.mtime w.current w.statOk then
      { ensure_dirs_for_station w with current := some (mkCurrent src) }
    else ensure_dirs_for_station w), applyArch cfg st src,
    mirror_some_good cfg st hin hb, hiff, ?_, rfl, rfl, ?_, ?_, ?_⟩
  · by_cases hnew : is_newer_than_current src.mtime w.current w.statOk = true
    · rw [if_pos hnew, if_pos hnew]
    · rw [if_neg hnew, if_neg hnew, ensure_current]
  · intro c hc
    by_cases hnew : is_newer_than_current src.mtime w.current w.statOk = true
    · refine ⟨mkCurrent src, by rw [if_pos hnew], ?_⟩
      rcases hiff.1 hnew with hnone | ⟨_, c', hc', hlt⟩
      · rw [hc] at hnone; cases hnone
      · rw [hc] at hc'
        cases Option.some.inj hc'
        exact Nat.le_of_lt hlt
    · exact ⟨c, by rw [if_neg hnew]; exact hc, Nat.le_refl _⟩
  · intro c hc hlt
    have hnew : ¬ is_newer_than_current src.mtime w.current w.statOk = true := by
      intro hnew
      rcases hiff.1 hnew with hnone | ⟨_, c', hc', hlt'⟩
      · rw [hc] at hnone; cases hnone
      · rw [hc] at hc'
        cases Option.some.inj hc'
        exact Nat.lt_irrefl _ (Nat.lt_trans hlt hlt')
    rw [if_neg hnew, ensure_current]
  · intro rows st₀ rows' st₀' cr old h
    exact scan_current_mono h

/-- Witness for C3 at a concrete station, world and incoming file. -/
theorem c3_mirror_monotonic_witness :
    ∃ w' st',
      mirror_current_and_archive wcfg wmir initState =
        some (some (infoOf wcfg wfile), w', st') ∧
      (is_newer_than_current wfile.mtime wmir.current wmir.statOk = true ↔
        (wmir.current = none ∨ (wmir.statOk = true ∧
          ∃ c, wmir.current = some c ∧ c.mtime < wfile.mtime))) ∧
      w'.current = (if is_newer_than_current wfile.mtime wmir.current wmir.statOk
        then some (mkCurrent wfile) else wmir.current) ∧
      (mkCurrent wfile).mtime = wfile.mtime ∧
      (mkCurrent wfile).content = wfile.content ∧
      (∀ c, wmir.current = some c →
        ∃ c', w'.current = some c' ∧ c.mtime ≤ c'.mtime) ∧
      (∀ c, wmir.current = some c → wfile.mtime < c.mtime →
        w'.current = wmir.current) ∧
      (∀ rows st₀ rows' st₀' cr old,
        scan_cmd rows st₀ = some (rows', st₀', cr, old) →
        List.Forall₂ (fun r r' : StRow => ∀ cf, r.w.current = some cf →
          ∃ cf', r'.w.current = some cf' ∧ cf.mtime ≤ cf'.mtime) rows rows') :=
  c3_mirror_monotonic wcfg wmir initState wfile rfl rfl

/-- C5: archiving an existing source file computes the day from the
file's modification timestamp alone (UTC civil date), copies the file
under `archive/<key>/<YYYY>/<MM>/<DD>/` keeping its original name, and
upserts the catalog row with name, path, country and station taken from
the file and descriptor, for any prior catalog contents (in particular
when a row for that key already existed). -/
theorem c5_archive_writer (cfg : StationCfg) (src : SrcFile) (st : ArchState)
    (hb : src.bad = false) :
    ∃ st', archive_file (some src) cfg st =
        some (some { key := cfg.key, date := utc_date_from_mtime src.mtime,
                     archive := archivePath cfg src }, st') ∧
      fsRead st'.fs (archivePath cfg src) = some src ∧
      archivePath cfg src = "archive/" ++ cfg.key ++ "/"
        ++ pad4 (civilFromDays (src.mtime / 86400)).1 ++ "/"
        ++ pad2 (civilFromDays (src.mtime / 86400)).2.1 ++ "/"
        ++ pad2 (civilFromDays (src.mtime / 86400)).2.2 ++ "/" ++ src.name ∧
      utc_date_from_mtime src.mtime =
        pad4 (civilFromDays (src.mtime / 86400)).1 ++ "-"
        ++ pad2 (civilFromDays (src.mtime / 86400)).2.1 ++ "-"
        ++ pad2 (civilFromDays (src.mtime / 86400)).2.2 ∧
      findRec st'.catalog cfg.key (utc_date_from_mtime src.mtime) =
        some { image_name := src.name, country := cfg.country,
               station := cfg.station, date := utc_date_from_mtime src.mtime,
               station_key := cfg.key, file_path := archivePath cfg src } ∧
      utc_date_from_mtime 0 = "1970-01-01" ∧
      utc_date_from_mtime 1709337000 = "2024-03-01" := by
  refine ⟨applyArch cfg st src, archive_file_of_good cfg st src hb, ?_, rfl, rfl,
    ?_, by decide, by decide⟩
  · exact fsRead_fsWrite_self st.fs (archivePath cfg src) src
  · exact findRec_upsert_self st.catalog (rowOf cfg src)

/-- Witness for C5 at a concrete station, file and empty store. -/
theorem c5_archive_writer_witness :
    ∃ st', archive_file (some wfile) wcfg initState =
        some (some { key := wcfg.key, date := utc_date_from_mtime wfile.mtime,
                     archive := archivePath wcfg wfile }, st') ∧
      fsRead st'.fs (archivePath wcfg wfile) = some wfile ∧
      archivePath wcfg wfile = "archive/" ++ wcfg.key ++ "/"
        ++ pad4 (civilFromDays (wfile.mtime / 86400)).1 ++ "/"
        ++ pad2 (civilFromDays (wfile.mtime / 86400)).2.1 ++ "/"
        ++ pad2 (civilFromDays (wfile.mtime / 86400)).2.2 ++ "/" ++ wfile.name ∧
      utc_date_from_mtime wfile.mtime =
        pad4 (civilFromDays (wfile.mtime / 86400)).1 ++ "-"
        ++ pad2 (civilFromDays (wfile.mtime / 86400)).2.1 ++ "-"
        ++ pad2 (civilFromDays (wfile.mtime / 86400)).2.2 ∧
      findRec st'.catalog wcfg.key (utc_date_from_mtime wfile.mtime) =
        some { image_name := wfile.name, country := wcfg.country,
               station := wcfg.station, date := utc_date_from_mtime wfile.mtime,
               station_key := wcfg.key, file_path := archivePath wcfg wfile } ∧
      utc_date_from_mtime 0 = "1970-01-01" ∧
      utc_date_from_mtime 1709337000 = "2024-03-01" :=
  c5_archive_writer wcfg wfile initState rfl

/-- C6: whenever the incoming file exists (and archiving it does not
raise), the combined mirror-and-archive operation archives it — archive
copy plus catalog upsert via `applyArch` — regardless of the promotion
decision; in particular also when the file is not strictly newer than
current or the timestamp comparison failed, in which case current is
untouched. -/
theorem c6_archive_despite_no_promotion (cfg : StationCfg) (w : StWorld)
    (st : ArchState) (src : SrcFile)
    (hin : w.incoming = some src) (hb : src.bad = false) :
    ∃ w', mirror_current_and_archive cfg w st =
        some (some (infoOf cfg src), w', applyArch cfg st src) ∧
      (is_newer_than_current src.mtime w.current w.statOk = false →
        mirror_current_and_archive cfg w st =
          some (some (infoOf cfg src), ensure_dirs_for_station w,
            applyArch cfg st src) ∧
        (ensure_dirs_for_station w).current = w.current) := by
  refine ⟨_, mirror_some_good cfg st hin hb, ?_⟩
  intro hnot
  rw [mirror_some_good cfg st hin hb, if_neg (by rw [hnot]; simp)]
  exact ⟨rfl, ensure_current w⟩

/-- Witness for C6: the incoming file is older than current (not
promoted) yet still archived. -/
theorem c6_archive_despite_no_promotion_witness :
    ∃ w', mirror_current_and_archive wcfg
        { incoming := some wg1, current := some wfile,
          oldIncomingDir := some [], statOk := true } initState =
        some (some (infoOf wcfg wg1), w', applyArch wcfg initState wg1) ∧
      (is_newer_than_current wg1.mtime (some wfile) true = false →
        mirror_current_and_archive wcfg
          { incoming := some wg1, current := some wfile,
            oldIncomingDir := some [], statOk := true } initState =
          some (some (infoOf wcfg wg1), ensure_dirs_for_station
            { incoming := some wg1, current := some wfile,
              oldIncomingDir := some [], statOk := true },
            applyArch wcfg initState wg1) ∧
        (ensure_dirs_for_station
          { incoming := some wg1, current := some wfile,
            oldIncomingDir := some [], statOk := true }).current
          = some wfile) :=
  c6_archive_despite_no_promotion wcfg _ initState wg1 rfl rfl

/-- C7: during a backfill sweep a failing file is not deleted, one
warning is logged for it, and the sweep continues in order; exactly the
successfully archived files are deleted from the directory and appear
in the returned list. -/
theorem c7_backfill_failure_isolation (cfg : StationCfg) (w : StWorld)
    (st : ArchState) (files : List SrcFile)
    (hdir : w.oldIncomingDir = some files)
    (hnames : (files.map SrcFile.name).Nodup) :
    archive_only_from_old_incoming cfg w st =
      (some (((sortedPngs files).filter (fun f => !f.bad)).map (infoOf cfg)),
       { w with oldIncomingDir := some (files.filter (fun g => !(isPng g && !g.bad))) },
       ((sortedPngs files).filter (fun f => !f.bad)).foldl (applyArch cfg) st,
       ((sortedPngs files).filter (fun f => f.bad)).map warnOf) := by
  rw [archive_only_spec, hdir]
  simp only [Option.getD_some]
  have hpred : ∀ g ∈ files,
      (!((sortedPngs files).any (fun f => !f.bad && g.name == f.name)))
        = (!(isPng g && !g.bad)) := by
    intro g hg
    have : ((sortedPngs files).any (fun f => !f.bad && g.name == f.name))
        = (isPng g && !g.bad) := by
      by_cases hgb : (isPng g && !g.bad) = true
      · rw [hgb, List.any_eq_true]
        refine ⟨g, ?_, ?_⟩
        · rw [sortedPngs, List.mem_insertionSort mtimeLE, List.mem_filter]
          exact ⟨hg, (Bool.and_eq_true .. ▸ hgb).1⟩
        · simp [(Bool.and_eq_true .. ▸ hgb).2]
      · rw [Bool.not_eq_true] at hgb
        rw [hgb, List.any_eq_false]
        intro f hf hc
        rw [Bool.and_eq_true] at hc
        have hfmem : f ∈ files.filter isPng := by
          rw [sortedPngs, List.mem_insertionSort mtimeLE] at hf
          exact hf
        rw [List.mem_filter] at hfmem
        have hfg : f = g := by
          apply List.inj_on_of_nodup_map hnames hfmem.1 hg
          have := hc.2
          simp only [beq_iff_eq] at this
          exact this.symm
        cases hfg
        rw [hfmem.2, hc.1] at hgb
        simp at hgb
    rw [this]
  rw [List.filter_congr hpred]

/-- Witness for C7: a good `.png`, a failing `.png` and a `.txt` file;
only the good `.png` is archived and deleted, the failing one is kept
and logged. -/
theorem c7_backfill_failure_isolation_witness :
    archive_only_from_old_incoming wcfg wmix initState =
      (some (((sortedPngs wfilesMix).filter (fun f => !f.bad)).map (infoOf wcfg)),
       { wmix with oldIncomingDir := some (wfilesMix.filter (fun g => !(isPng g && !g.bad))) },
       ((sortedPngs wfilesMix).filter (fun f => !f.bad)).foldl
         (applyArch wcfg) initState,
       ((sortedPngs wfilesMix).filter (fun f => f.bad)).map warnOf) :=
  c7_backfill_failure_isolation wcfg wmix initState wfilesMix rfl (by decide)

/-- C8: the search returns exactly the catalog rows matching every
supplied filter — an absent (empty) filter matches everything, matching
is exact string equality — ordered by date descending and, for equal
dates, station ascending. -/
theorem c8_search_query (qc qs qd : String) (c : List ArchiveImage) :
    (search_route qc qs qd c).Perm
      ((c.map selectRow).filter (matches_query qc qs qd)) ∧
    (search_route qc qs qd c).Sorted searchLE ∧
    (∀ r : SearchRow, matches_query qc qs qd r = true ↔
      ((qc = "" ∨ r.country = qc) ∧ (qs = "" ∨ r.station = qs) ∧
        (qd = "" ∨ r.date = qd))) ∧
    (∀ a b : SearchRow, searchLE a b ↔
      (b.date < a.date ∨ (a.date = b.date ∧ a.station ≤ b.station))) := by
  refine ⟨List.perm_insertionSort searchLE _,
    List.sorted_insertionSort searchLE _, ?_, fun a b => Iff.rfl⟩
  intro r
  constructor
  · intro h
    simp only [matches_query, Bool.and_eq_true, Bool.or_eq_true,
      beq_iff_eq] at h
    exact ⟨h.1.1.elim Or.inl Or.inr, h.1.2.elim Or.inl Or.inr,
      h.2.elim Or.inl Or.inr⟩
  · intro h
    simp only [matches_query, Bool.and_eq_true, Bool.or_eq_true, beq_iff_eq]
    exact ⟨⟨h.1.elim Or.inl Or.inr, h.2.1.elim Or.inl Or.inr⟩,
      h.2.2.elim Or.inl Or.inr⟩

/-- C9 counterexample: with the incoming file absent and the
old-incoming directory absent, `mirror_current_and_archive` returns
nothing but does change state — `_ensure_dirs_for_station` creates the
station's old-incoming directory before the existence check — so
"changes no state" is false as stated. -/
theorem c9_counterexample_mirror_creates_dir :
    mirror_current_and_archive wcfg wnone initState =
      some (none, { incoming := none, current := none, oldIncomingDir := some [], statOk := true }, initState) ∧
    ({ incoming := none, current := none, oldIncomingDir := some [], statOk := true } : StWorld) ≠ wnone := by
  decide

/-- C9 (amended): if the source file does not exist, the archive
operation returns `None` and performs no archive copy and no catalog
write; if the incoming file is absent, mirror-and-archive returns
`None` and leaves `current`, `incoming`, `statOk`, the archive tree and
the catalog unchanged — its only state change is creating the station's
(empty) old-incoming directory when absent. -/
theorem c9_missing_source (cfg : StationCfg) (w : StWorld) (st : ArchState) :
    archive_file none cfg st = some (none, st) ∧
    (w.incoming = none →
      mirror_current_and_archive cfg w st =
        some (none, ensure_dirs_for_station w, st) ∧
      (ensure_dirs_for_station w).current = w.current ∧
      (ensure_dirs_for_station w).incoming = w.incoming ∧
      (ensure_dirs_for_station w).statOk = w.statOk ∧
      (ensure_dirs_for_station w).oldIncomingDir =
        some (w.oldIncomingDir.getD [])) := by
  refine ⟨rfl, ?_⟩
  intro hin
  exact ⟨mirror_none_case cfg st hin, rfl, rfl, rfl, rfl⟩

/-- Witness for C9 (amended) at a concrete station and empty world. -/
theorem c9_missing_source_witness :
    archive_file none wcfg initState = some (none, initState) ∧
    (mirror_current_and_archive wcfg wnone initState =
        some (none, ensure_dirs_for_station wnone, initState) ∧
      (ensure_dirs_for_station wnone).current = wnone.current ∧
      (ensure_dirs_for_station wnone).incoming = wnone.incoming ∧
      (ensure_dirs_for_station wnone).statOk = wnone.statOk ∧
      (ensure_dirs_for_station wnone).oldIncomingDir =
        some (wnone.oldIncomingDir.getD [])) :=
  ⟨(c9_missing_source wcfg wnone initState).1,
   (c9_missing_source wcfg wnone initState).2 rfl⟩

theorem archive_only_isSome (cfg : StationCfg) (w : StWorld) (st : ArchState) :
    (archive_only_from_old_incoming cfg w st).1.isSome = true := by
  rw [archive_only_spec]
  rfl

theorem phase2_total (rows : List StRow) :
    ∀ st : ArchState, (phase2 rows st).isSome = true := by
  induction rows with
  | nil => intro st; rfl
  | cons r rs ih =>
    intro st
    rw [phase2, archive_only_spec]
    dsimp only
    cases hp : phase2 rs (((sortedPngs (r.w.oldIncomingDir.getD [])).filter
        (fun f => !f.bad)).foldl (applyArch r.cfg) st) with
    | none =>
      have := ih (((sortedPngs (r.w.oldIncomingDir.getD [])).filter
        (fun f => !f.bad)).foldl (applyArch r.cfg) st)
      rw [hp] at this
      cases this
    | some out =>
      obtain ⟨rs', st'', acc⟩ := out
      rfl

/-- C10: the backfill sweep always returns a list, never `None` — the
directory-absent branch is unreachable because
`_ensure_dirs_for_station` creates the old-incoming directory
immediately before the existence check — so phase 2 of `scan_cmd`,
which extends a list by each station's result, cannot fail on a `None`
value. -/
theorem c10_backfill_never_none (cfg : StationCfg) (w : StWorld)
    (st : ArchState) (rows : List StRow) (st₀ : ArchState) :
    (archive_only_from_old_incoming cfg w st).1.isSome = true ∧
    (phase2 rows st₀).isSome = true :=
  ⟨archive_only_isSome cfg w st, phase2_total rows st₀⟩

/-- Witness for C2: three good `.png` files, two on the same UTC day. -/
theorem c2_backfill_drains_witness :
    ∃ st' log,
      archive_only_from_old_incoming wcfg wback initState =
        (some ((sortedPngs wfiles3).map (infoOf wcfg)),
         { wback with oldIncomingDir := some [] }, st', log) ∧
      (sortedPngs wfiles3).Sorted mtimeLE ∧
      (sortedPngs wfiles3).Perm wfiles3 ∧
      ∀ f ∈ wfiles3,
        (∀ g ∈ wfiles3,
          utc_date_from_mtime g.mtime = utc_date_from_mtime f.mtime →
            g.mtime ≤ f.mtime) →
        findRec st'.catalog wcfg.key (utc_date_from_mtime f.mtime) =
          some (rowOf wcfg f) :=
  c2_backfill_drains wcfg wback initState wfiles3 rfl (by decide) (by decide)
